import Mathlib

/-!
# NeuroScan: a verification development

A shallow embedding of `NeuroScan.cpp` (the assessment run `runAssessment` and the
results viewer `viewPastResults`) together with the parts of the C++ standard library
the program relies on: formatted extraction from `cin`, `getline`, and appending to files.

Conventions of the embedding

* `int` values are mathematical integers; extraction clamps to `INT_MIN`/`INT_MAX` exactly as
  `operator>>(int&)` does, and the only arithmetic on them (`totalScore += responses[i]`,
  at most twenty, and `reminderChoice * 7 * 24 * 60 * 60` for the choices 1 and 2) cannot
  overflow. Timestamps (`time_t`) are mathematical integers as well.
* Standard input is the finite sequence of characters the session supplies; the end of the
  sequence is end-of-file. A stream carries one flag, `good`; every operation on a stream that is
  not good is a no-op, as in C++ (the program never calls `clear`). Extraction follows the rules
  of C++11 and later: a failed extraction of an `int` stores 0.
* Characters are code points where the program reads bytes; the program only ever inspects
  ASCII characters (whitespace, digits, the signs, the newline, the letter y), and
  `cin.ignore()` agrees with the embedding when the character it discards is ASCII.
* Console output is the list of the chunks written by the successive `cout` statements.
* A file system maps a file name to the content of the file, `none` when the file is absent.
  Opening a file for appending succeeds and creates the file when it is absent.
* Reading a local variable that was never written yields an arbitrary value, which the
  embedding takes as a parameter.
* The validation loop `while (responses[i] < 0 || responses[i] > 2)` may spin forever; it is
  embedded with a fuel parameter, and `none` stands for a run that is still inside that loop.
-/

namespace NeuroScan

/-! ## Constants and global variables -/

/-- Number of questions in the assessment. -/
def NUM_QUESTIONS : Nat := 10

/-- File to save assessment results. -/
def logFile : String := "NeuroScan_Results.txt"

/-- File the reminders are appended to (a literal in `runAssessment`). -/
def reminderFileName : String := "NeuroScan_Reminders.txt"

/-- Largest value of a C++ `int` (32 bits). -/
def INT_MAX : Int := 2147483647

/-- Smallest value of a C++ `int` (32 bits). -/
def INT_MIN : Int := -2147483648

/-! ## The standard input stream -/

/-- An input stream: the characters not yet consumed, and whether the stream is good
(no error flag set). -/
structure IStream where
  buf : List Char
  good : Bool
  deriving DecidableEq, Repr

/-- The whitespace of the classic locale, `isspace`. -/
def isspace (c : Char) : Bool :=
  c == ' ' || c == '\t' || c == '\n' || c == '\x0b' || c == '\x0c' || c == '\r'

/-- Skipping of leading whitespace done by the sentry of a formatted extraction. -/
def skipws (b : List Char) : List Char := b.dropWhile isspace

/-- Value of a sequence of decimal digits, most significant first. -/
def digitsVal (ds : List Char) : Nat :=
  ds.foldl (fun acc c => 10 * acc + (c.toNat - 48)) 0

/-- Formatted extraction `cin >> x` for an `int` variable currently holding `old`
(C++11 rules, classic locale, decimal base): on a stream that is not good nothing happens;
at end of file the stream fails and `x` keeps its value; text that does not start with a decimal
numeral stores `0` and fails; a numeral outside the range of `int` stores the nearest bound and
fails; otherwise the value is stored and the numeral is consumed. -/
def extractInt (s : IStream) (old : Int) : Int × IStream :=
  if s.good then
    match skipws s.buf with
    | [] => (old, ⟨[], false⟩)
    | c :: cs =>
      let body := if c == '-' || c == '+' then cs else c :: cs
      let ds := body.takeWhile Char.isDigit
      let rest := body.dropWhile Char.isDigit
      if ds.isEmpty then (0, ⟨rest, false⟩)
      else
        let v : Int := if c == '-' then -(digitsVal ds : Int) else (digitsVal ds : Int)
        if v < INT_MIN then (INT_MIN, ⟨rest, false⟩)
        else if v > INT_MAX then (INT_MAX, ⟨rest, false⟩)
        else (v, ⟨rest, true⟩)
  else (old, s)

/-- Formatted extraction `cin >> c` for a `char` variable currently holding `old`:
the first character that is not whitespace. -/
def extractChar (s : IStream) (old : Char) : Char × IStream :=
  if s.good then
    match skipws s.buf with
    | [] => (old, ⟨[], false⟩)
    | c :: cs => (c, ⟨cs, true⟩)
  else (old, s)

/-- The call `cin.ignore()`: discards one character. -/
def ignore (s : IStream) : IStream :=
  if s.good then
    match s.buf with
    | [] => ⟨[], false⟩
    | _ :: cs => ⟨cs, true⟩
  else s

/-- The call `getline(stream, line)` for a string currently holding `old`: the characters up to
the next newline, which is consumed and not stored; it fails when no character at all could be
extracted. -/
def getline (s : IStream) (old : String) : String × IStream :=
  if s.good then
    match s.buf with
    | [] => ("", ⟨[], false⟩)
    | c :: cs =>
      (String.mk ((c :: cs).takeWhile (fun x => x != '\n')),
        ⟨((c :: cs).dropWhile (fun x => x != '\n')).tail, true⟩)
  else (old, s)

/-! ## Files -/

/-- A file system: the content of each named file, `none` when the file does not exist. -/
abbrev Files := String → Option String

/-- Opening `name` with `ofstream(name, ios::app)`, writing `text`, closing: the file is created
when absent and the text is added after what the file holds. -/
def appendFile (fs : Files) (name : String) (text : String) : Files :=
  fun n => if n = name then some ((fs name).getD "" ++ text) else fs n

/-! ## The assessment -/

/-- Array of assessment questions. -/
def questions : List String :=
  ["1. Do you often forget recent conversations, appointments, or events?",
   "2. Do you have trouble finding the right words during conversation?",
   "3. Do you get lost or confused in familiar places?",
   "4. Do you have trouble concentrating or following conversations with multiple people?",
   "5. Do you frequently misplace things and have trouble retracing your steps?",
   "6. Have you noticed stiffness or rigidity in your arms, legs, or neck?",
   "7. Do you walk more slowly or with a shuffling gait?",
   "8. Do you feel off-balance or experience frequent stumbling or unsteadiness?",
   "9. Have you noticed changes in your handwriting, such as smaller or shakier letters?",
   "10. Do you experience tremors or involuntary shaking when resting?"]

/-- Text written by `setw(2) << n`: the decimal numeral, padded on the left to two columns. -/
def setw2 (n : Nat) : String :=
  if (toString n).length < 2 then " " ++ toString n else toString n

/-- The prompt of a question. -/
def promptMsg : String := "Your response (0 = Never, 1 = Sometimes, 2 = Often): "

/-- The request to enter the response again. -/
def invalidMsg : String := "Invalid input. Please enter 0, 1, or 2: "

/-- The progress line displayed after question `i` (counted from zero). -/
def progressMsg (i : Nat) : String :=
  "Progress: [" ++ setw2 (i + 1) ++ "/" ++ toString NUM_QUESTIONS ++ "] completed\n\n"

/-- The separator line written to the console. -/
def separator : String := "------------------------------------------------------\n"

/-- First line of the note on frequent memory issues. -/
def memoryNote1 : String :=
  "🧠 Additional Note: Frequent memory issues may be a sign of early cognitive decline.\n"

/-- Second line of the note on frequent memory issues. -/
def memoryNote2 : String :=
  ">> Tip: Use reminders, sticky notes, and keep a memory journal.\n\n"

/-- Input validation: `while (responses[i] < 0 || responses[i] > 2)`, asking again and
extracting again into `responses[i]`, whose current value is `v`. -/
def whileInvalid : Nat → Int → IStream → List String → Option (Int × IStream × List String)
  | 0, _, _, _ => none
  | fuel + 1, v, cin, out =>
    if v < 0 ∨ v > 2 then
      whileInvalid fuel (extractInt cin v).1 (extractInt cin v).2 (out ++ [invalidMsg])
    else some (v, cin, out)

/-- State of the loop over the questions: the input stream, the responses recorded so far
(`responses[0]`, ..., `responses[i-1]`), the running total and the console output. -/
structure LoopState where
  cin : IStream
  responses : List Int
  totalScore : Int
  out : List String
  deriving DecidableEq, Repr

/-- Body of the loop for question `i`; `garbage` is the value `responses[i]` holds before the
first extraction writes it. -/
def askQuestion (fuel : Nat) (garbage : Int) (i : Nat) (st : LoopState) : Option LoopState :=
  match whileInvalid fuel (extractInt st.cin garbage).1 (extractInt st.cin garbage).2
      (st.out ++ [questions.getD i "" ++ "\n", promptMsg]) with
  | none => none
  | some (v, cin, out) =>
    some { cin := cin, responses := st.responses ++ [v], totalScore := st.totalScore + v,
           out := out ++ [progressMsg i] }

/-- The loop `for (int i = 0; i < NUM_QUESTIONS; i++)`, with `n` iterations left, the next
being question `i`. -/
def forLoop (fuel : Nat) (garbage : Nat → Int) : Nat → Nat → LoopState → Option LoopState
  | 0, _, st => some st
  | n + 1, i, st =>
    match askQuestion fuel (garbage i) i st with
    | none => none
    | some st1 => forLoop fuel garbage n (i + 1) st1

/-- Risk level and recommendation for a total score. -/
def classify (totalScore : Int) : String × String :=
  if totalScore ≥ 16 then
    ("🔴 High Concern",
     "Your responses suggest significant symptoms. Please consult a healthcare professional.\n" ++
     ">> In the meantime: Keep a symptom journal, avoid multitasking, and ensure proper sleep.\n" ++
     "\nSupport Resources:\n- Alzheimer's Association: 1-800-272-3900 | https://www.alz.org/\n- Parkinson’s Foundation: https://www.parkinson.org")
  else if totalScore ≥ 9 then
    ("🟠 Moderate Concern",
     "Some symptoms are present. A screening may be beneficial.\n" ++
     ">> Helpful habits: Brain games, exercise, and a Mediterranean diet.\n" ++
     "\nSupport Resources:\n- Cleveland Clinic Brain Health: https://my.clevelandclinic.org\n- AARP Brain Health: https://www.aarp.org/health/brain-health/")
  else
    ("🟢 Low Concern",
     "No significant symptoms detected.\n" ++
     ">> Tip: Maintain a healthy lifestyle, engage socially, and stay mentally active.\n" ++
     "\nBrain Health Tips:\n- Try puzzles and memory games weekly\n- Stay physically active and socially engaged")

/-- Text of the entry appended to the assessment log; `dt` is the text of the timestamp. -/
def logEntry (userName : String) (isCaregiver : Bool) (dt : String) (totalScore : Int) : String :=
  "------------------------------------------\n" ++
  ("User: " ++ userName ++ (if isCaregiver then " (Caregiver)" else "") ++ "\nDate: " ++ dt) ++
  ("Score: " ++ toString totalScore ++ " / " ++ toString (NUM_QUESTIONS * 2) ++ "\n") ++
  ("Risk Level: " ++ (classify totalScore).1 ++ "\n") ++
  ("Recommendation: " ++ (classify totalScore).2 ++ "\n")

/-- Text of the line appended to the reminder file; `reminderDate` is the text of the date. -/
def reminderLine (userName : String) (reminderDate : String) : String :=
  userName ++ " should retake NeuroScan on: " ++ reminderDate

/-- Text of the line appended to the assessment log for a caregiver note. -/
def noteLine (caregiverNote : String) : String :=
  "Caregiver Note: " ++ caregiverNote ++ "\n"

/-- The line announcing the total score. -/
def scoreMsg (userName : String) (totalScore : Int) : String :=
  userName ++ ", your total risk score is: " ++ toString totalScore ++ " out of " ++
    toString (NUM_QUESTIONS * 2) ++ ".\n"

/-- What surrounds a run and is not decided by the program: the library function `ctime`
(text of a timestamp, in the local time zone), the value `time(0)` returns, and the values the
local variables `responses[i]`, `reminderChoice` and `noteChoice` hold before they are
written. -/
structure Env where
  ctime : Int → String
  now : Int
  responses0 : Nat → Int
  reminderChoice0 : Int
  noteChoice0 : Char

/-- The standard input, the files and the console output. -/
structure World where
  cin : IStream
  fs : Files
  out : List String

/-- The note on frequent memory issues, the score, the classification, and the entry appended to
the assessment log. -/
def report (env : Env) (userName : String) (isCaregiver : Bool) (st : LoopState) (fs : Files) :
    World :=
  { cin := st.cin
    fs := appendFile fs logFile (logEntry userName isCaregiver (env.ctime env.now) st.totalScore)
    out := st.out ++ [separator] ++
      (if st.responses[0]? = some 2 then [memoryNote1, memoryNote2] else []) ++
      [scoreMsg userName st.totalScore,
       "\n" ++ (classify st.totalScore).1 ++ "\n" ++ (classify st.totalScore).2 ++ "\n",
       "\n📄 Your results have been saved to '" ++ logFile ++ "'.\n",
       "------------------------------------------------------\n\n"] }

/-- The prompt for a reminder and, for the choices 1 and 2, the line appended to the reminder
file. The result also gives the value of `reminderChoice`. -/
def reminder (env : Env) (userName : String) (w : World) : World × Int :=
  let reminderChoice := (extractInt w.cin env.reminderChoice0).1
  let cin := (extractInt w.cin env.reminderChoice0).2
  let out := w.out ++
    ["Would you like to set a reminder to retake this in:\n1 week (1), 2 weeks (2), or No reminder (0)? "]
  if reminderChoice = 1 ∨ reminderChoice = 2 then
    ({ cin := cin
       fs := appendFile w.fs reminderFileName
         (reminderLine userName (env.ctime (env.now + reminderChoice * 7 * 24 * 60 * 60)))
       out := out ++ ["\n🔔 Reminder saved! You'll see this in 'NeuroScan_Reminders.txt'.\n"] },
     reminderChoice)
  else ({ cin := cin, fs := w.fs, out := out }, reminderChoice)

/-- The weekly challenge and, for a caregiver, the optional note appended to the assessment
log. -/
def caregiver (env : Env) (isCaregiver : Bool) (w : World) : World :=
  let out := w.out ++ ["\n💡 Weekly Brain Health Challenge:\n",
    "This week, try learning a new word each day and use it in conversation. 🧠📖\n"]
  if isCaregiver then
    let noteChoice := (extractChar w.cin env.noteChoice0).1
    let cin := ignore (extractChar w.cin env.noteChoice0).2
    let out1 := out ++ ["\nWould you like to leave a caregiver note? (y/n): "]
    if noteChoice.toLower = 'y' then
      { cin := (getline cin "").2
        fs := appendFile w.fs logFile (noteLine (getline cin "").1)
        out := out1 ++ ["Enter your caregiver note: "] }
    else { cin := cin, fs := w.fs, out := out1 }
  else { cin := w.cin, fs := w.fs, out := out }

/-- What a completed run leaves: the world, and the values of the local variables `responses`,
`totalScore` and `reminderChoice`. -/
structure Outcome where
  world : World
  responses : List Int
  totalScore : Int
  reminderChoice : Int

/-- Runs the NeuroScan assessment: asks the questions, records the responses, computes the
score, gives the recommendation, saves the result, and optionally sets a reminder and accepts a
caregiver note. -/
def runAssessment (fuel : Nat) (env : Env) (userName : String) (isCaregiver : Bool)
    (cin : IStream) (fs : Files) : Option Outcome :=
  match forLoop fuel env.responses0 NUM_QUESTIONS 0 ⟨cin, [], 0, []⟩ with
  | none => none
  | some st =>
    some { world := caregiver env isCaregiver
             (reminder env userName (report env userName isCaregiver st fs)).1
           responses := st.responses
           totalScore := st.totalScore
           reminderChoice := (reminder env userName (report env userName isCaregiver st fs)).2 }

/-! ## The results viewer -/

/-- The loop `while (getline(inFile, line)) cout << line << endl;`. -/
def readLines : Nat → IStream → List String → List String
  | 0, _, out => out
  | fuel + 1, inFile, out =>
    if (getline inFile "").2.good then
      readLines fuel (getline inFile "").2 (out ++ [(getline inFile "").1 ++ "\n"])
    else out

/-- Reads and displays all past assessment results stored in the log file. The result is the
console output and the file system the call leaves. The loop consumes a character of the file
at each turn, so the length of the file bounds the number of turns. -/
def viewPastResults (fs : Files) : List String × Files :=
  match fs logFile with
  | none => (["No previous results found.\n"], fs)
  | some content =>
    (readLines (content.length + 1) ⟨content.data, true⟩
       ["\n📁 Displaying past results:\n", separator], fs)

/-! ## Input typed at the console -/

/-- The characters received when each of the integers `vs` is typed in decimal and followed by
the Enter key. -/
def typed : List Int → List Char
  | [] => []
  | v :: vs => (toString v).data ++ '\n' :: typed vs

/-- A value accepted by the input validation. -/
def inRange (v : Int) : Bool := decide (0 ≤ v) && decide (v ≤ 2)

/-- The first accepted value among the integers typed (`0` when there is none). -/
def firstValid : List Int → Int
  | [] => 0
  | v :: vs => if inRange v then v else firstValid vs

/-- The integers typed after the first accepted value. -/
def afterValid : List Int → List Int
  | [] => []
  | v :: vs => if inRange v then vs else afterValid vs

/-- The number of integers typed before the first accepted value. -/
def skippedBefore : List Int → Nat
  | [] => 0
  | v :: vs => if inRange v then 0 else skippedBefore vs + 1

/-- The integers typed after the `n`-th accepted value. -/
def remaining : Nat → List Int → List Int
  | 0, vs => vs
  | n + 1, vs => remaining n (afterValid vs)

/-- The console dialogue expected for `n` questions, from question `i` on, when the integers
`vs` are typed: for each question its text and the prompt, one request to enter the response
again for each integer typed before an accepted one, and the progress line. -/
def dialogue : Nat → Nat → List Int → List String
  | 0, _, _ => []
  | n + 1, i, vs =>
    [questions.getD i "" ++ "\n", promptMsg] ++ List.replicate (skippedBefore vs) invalidMsg ++
      [progressMsg i] ++ dialogue n (i + 1) (afterValid vs)


/-- Whether a text begins with a decimal numeral, optionally signed. -/
def startsNumeral : List Char → Bool
  | [] => false
  | [c] => c.isDigit
  | c :: d :: _ => c.isDigit || ((c == '-' || c == '+') && d.isDigit)

/-- A sample environment: a clock that reads 1000 and a `ctime` that writes the number of
seconds; the uninitialised variables hold 7, 9 and `q`. -/
def sampleEnv : Env :=
  { ctime := fun t => toString t ++ "\n", now := 1000, responses0 := fun _ => 7,
    reminderChoice0 := 9, noteChoice0 := 'q' }

/-- A file system without any file. -/
def noFiles : Files := fun _ => none

/-- The state in which the loop over the questions ends on the given input (a failed state
when it does not end within the fuel). -/
def sampleLoop (fuel : Nat) (env : Env) (input : String) : LoopState :=
  (forLoop fuel env.responses0 NUM_QUESTIONS 0 ⟨⟨input.data, true⟩, [], 0, []⟩).getD
    ⟨⟨[], false⟩, [], 0, []⟩

/-! ## Classification -/

/-- C1: the risk level chosen for a total score `s` is High Concern exactly when `s ≥ 16`,
Moderate Concern exactly when `9 ≤ s < 16`, and Low Concern exactly when `s < 9` (for every
integer `s`, in particular for `0 ≤ s ≤ 20`); the scores 8, 9, 15, 16 give Low, Moderate,
Moderate, High. -/
theorem classify_thresholds (s : Int) :
    ((classify s).1 = "🔴 High Concern" ↔ 16 ≤ s) ∧
    ((classify s).1 = "🟠 Moderate Concern" ↔ 9 ≤ s ∧ s < 16) ∧
    ((classify s).1 = "🟢 Low Concern" ↔ s < 9) ∧
    (classify 8).1 = "🟢 Low Concern" ∧ (classify 9).1 = "🟠 Moderate Concern" ∧
    (classify 15).1 = "🟠 Moderate Concern" ∧ (classify 16).1 = "🔴 High Concern" := by
  have h1 : ("🟠 Moderate Concern" : String) ≠ "🔴 High Concern" := by decide
  have h2 : ("🟢 Low Concern" : String) ≠ "🔴 High Concern" := by decide
  have h3 : ("🟢 Low Concern" : String) ≠ "🟠 Moderate Concern" := by decide
  refine ⟨?_, ?_, ?_, by decide, by decide, by decide, by decide⟩
  · unfold classify
    split_ifs with a b
    · simpa using a
    · simp only [h1, false_iff]; omega
    · simp only [h2, false_iff]; omega
  · unfold classify
    split_ifs with a b
    · simp only [h1.symm, false_iff]; omega
    · simp only [true_iff]; omega
    · simp only [h3, false_iff]; omega
  · unfold classify
    split_ifs with a b
    · simp only [h2.symm, false_iff]; omega
    · simp only [h3.symm, false_iff]; omega
    · simp only [true_iff]; omega

/-! ## Decimal numerals and formatted extraction -/

theorem digitChar_spec : ∀ d, d < 10 →
    (Nat.digitChar d).isDigit = true ∧ (Nat.digitChar d).toNat - 48 = d := by
  decide

theorem toDigitsCore_val (fuel : Nat) : ∀ (n : Nat) (ds : List Char), n < fuel →
    (Nat.toDigitsCore 10 fuel n ds).foldl (fun acc c => 10 * acc + (c.toNat - 48)) 0
      = ds.foldl (fun acc c => 10 * acc + (c.toNat - 48)) n := by
  induction fuel with
  | zero => intro n ds h; omega
  | succ fuel ih =>
    intro n ds h
    have hd := (digitChar_spec (n % 10) (Nat.mod_lt _ (by decide))).2
    unfold Nat.toDigitsCore
    by_cases h0 : n / 10 = 0
    · simp only [h0, if_true, List.foldl_cons, hd]
      congr 1; omega
    · simp only [h0, if_false]
      rw [ih (n / 10) _ (by omega)]
      simp only [List.foldl_cons, hd]
      congr 1; omega

theorem toDigitsCore_isDigit (fuel : Nat) : ∀ (n : Nat) (ds : List Char),
    (∀ c ∈ ds, c.isDigit = true) → ∀ c ∈ Nat.toDigitsCore 10 fuel n ds, c.isDigit = true := by
  induction fuel with
  | zero => intro n ds h; simpa [Nat.toDigitsCore] using h
  | succ fuel ih =>
    intro n ds h
    have hd := (digitChar_spec (n % 10) (Nat.mod_lt _ (by decide))).1
    have h2 : ∀ c ∈ Nat.digitChar (n % 10) :: ds, c.isDigit = true := by
      intro c hc
      rcases List.mem_cons.1 hc with rfl | hc
      · exact hd
      · exact h c hc
    unfold Nat.toDigitsCore
    by_cases h0 : n / 10 = 0
    · simpa only [h0, if_true] using h2
    · simp only [h0, if_false]
      exact ih _ _ h2

theorem toDigitsCore_ne_nil (fuel : Nat) : ∀ (n : Nat) (ds : List Char),
    Nat.toDigitsCore 10 (fuel + 1) n ds ≠ [] := by
  induction fuel with
  | zero => intro n ds; by_cases h0 : n / 10 = 0 <;> simp [h0, Nat.toDigitsCore]
  | succ fuel ih =>
    intro n ds
    unfold Nat.toDigitsCore
    by_cases h0 : n / 10 = 0
    · simp [h0]
    · simp only [h0, if_false]
      exact ih _ _


theorem takeWhile_append_stop {p : Char → Bool} (l : List Char) (y : Char) (r : List Char)
    (hl : ∀ x ∈ l, p x = true) (hy : p y = false) :
    (l ++ y :: r).takeWhile p = l ∧ (l ++ y :: r).dropWhile p = y :: r := by
  induction l with
  | nil => simp [List.takeWhile, List.dropWhile, hy]
  | cons a l ih =>
    have ha : p a = true := hl a (List.mem_cons_self _ _)
    have := ih (fun x hx => hl x (List.mem_cons_of_mem _ hx))
    simp [List.takeWhile, List.dropWhile, ha, this]

theorem skipws_append (ws b : List Char) (hws : ∀ x ∈ ws, isspace x = true) :
    skipws (ws ++ b) = skipws b := by
  induction ws with
  | nil => rfl
  | cons a ws ih =>
    have ha : isspace a = true := hws a (List.mem_cons_self _ _)
    have := ih (fun x hx => hws x (List.mem_cons_of_mem _ hx))
    simpa [skipws, List.dropWhile, ha] using this

theorem isDigit_not_space (c : Char) (h : c.isDigit = true) :
    isspace c = false ∧ c ≠ '-' ∧ c ≠ '+' := by
  refine ⟨?_, ?_, ?_⟩
  · by_contra hs
    simp only [isspace, Bool.not_eq_false, Bool.or_eq_true, beq_iff_eq] at hs
    rcases hs with ((((rfl | rfl) | rfl) | rfl) | rfl) | rfl <;> exact absurd h (by decide)
  · rintro rfl; exact absurd h (by decide)
  · rintro rfl; exact absurd h (by decide)

theorem toString_int_data (v : Int) :
    (0 ≤ v ∧ (toString v).data = Nat.toDigits 10 v.toNat) ∨
    (v < 0 ∧ (toString v).data = '-' :: Nat.toDigits 10 (-v).toNat) := by
  cases v with
  | ofNat n => left; exact ⟨Int.ofNat_nonneg n, rfl⟩
  | negSucc m => right; exact ⟨Int.negSucc_lt_zero m, rfl⟩


theorem toDigits_spec (n : Nat) :
    (∀ c ∈ Nat.toDigits 10 n, c.isDigit = true) ∧ Nat.toDigits 10 n ≠ [] ∧
    digitsVal (Nat.toDigits 10 n) = n := by
  refine ⟨toDigitsCore_isDigit _ _ _ (by simp), toDigitsCore_ne_nil _ _ _, ?_⟩
  unfold digitsVal Nat.toDigits
  rw [toDigitsCore_val (n + 1) n [] (by omega)]
  rfl

/-- Extraction of a numeral made of the digits `ds`, optionally signed, followed by a
character `y` that is not a digit. -/
theorem extractInt_digits (ws ds : List Char) (y : Char) (rest : List Char) (old : Int)
    (hws : ∀ x ∈ ws, isspace x = true) (hds : ∀ c ∈ ds, c.isDigit = true) (hne : ds ≠ [])
    (hy : y.isDigit = false) (hmax : (digitsVal ds : Int) ≤ INT_MAX) :
    extractInt ⟨ws ++ (ds ++ y :: rest), true⟩ old = ((digitsVal ds : Int), ⟨y :: rest, true⟩) := by
  obtain ⟨c, cs, rfl⟩ := List.exists_cons_of_ne_nil hne
  have hc := isDigit_not_space c (hds c (List.mem_cons_self _ _))
  have hsk : skipws (ws ++ (c :: cs ++ y :: rest)) = c :: (cs ++ y :: rest) := by
    rw [skipws_append _ _ hws]
    simp [skipws, List.dropWhile, hc.1]
  have htd := takeWhile_append_stop (c :: cs) y rest hds hy
  have hmin : ¬ ((digitsVal (c :: cs) : Int) < INT_MIN) := by
    unfold INT_MIN; omega
  have hc1 : (c == '-') = false := by simpa using hc.2.1
  have hc2 : (c == '+') = false := by simpa using hc.2.2
  simp only [extractInt, hsk, if_true, hc1, hc2, Bool.or_self, Bool.false_eq_true, if_false]
  rw [show c :: (cs ++ y :: rest) = (c :: cs) ++ y :: rest from rfl, htd.1, htd.2]
  simp only [List.isEmpty_cons, Bool.false_eq_true, if_false, hmin, not_lt.2 hmax]


theorem extractInt_neg_digits (ws ds : List Char) (y : Char) (rest : List Char) (old : Int)
    (hws : ∀ x ∈ ws, isspace x = true) (hds : ∀ c ∈ ds, c.isDigit = true) (hne : ds ≠ [])
    (hy : y.isDigit = false) (hmin : INT_MIN ≤ -(digitsVal ds : Int)) :
    extractInt ⟨ws ++ ('-' :: ds ++ y :: rest), true⟩ old =
      (-(digitsVal ds : Int), ⟨y :: rest, true⟩) := by
  have hsk : skipws (ws ++ ('-' :: ds ++ y :: rest)) = '-' :: (ds ++ y :: rest) := by
    rw [skipws_append _ _ hws]
    simp [skipws, List.dropWhile, isspace]
  have htd := takeWhile_append_stop ds y rest hds hy
  have hmax : ¬ (-(digitsVal ds : Int) > INT_MAX) := by
    unfold INT_MAX; omega
  have hemp : ds.isEmpty = false := by
    cases ds with
    | nil => exact absurd rfl hne
    | cons a l => rfl
  simp only [extractInt, hsk, if_true, beq_self_eq_true, Bool.true_or, htd.1, htd.2, hemp,
    Bool.false_eq_true, if_false, not_lt.2 hmin, hmax]

/-- Extraction of an integer that was typed in decimal and fits an `int`. -/
theorem extractInt_typed (ws : List Char) (v : Int) (rest : List Char) (old : Int)
    (hws : ∀ x ∈ ws, isspace x = true) (hmin : INT_MIN ≤ v) (hmax : v ≤ INT_MAX) :
    extractInt ⟨ws ++ ((toString v).data ++ '\n' :: rest), true⟩ old =
      (v, ⟨'\n' :: rest, true⟩) := by
  rcases toString_int_data v with ⟨h0, hd⟩ | ⟨h0, hd⟩
  · obtain ⟨h1, h2, h3⟩ := toDigits_spec v.toNat
    have hv : ((digitsVal (Nat.toDigits 10 v.toNat) : Nat) : Int) = v := by
      rw [h3]; exact Int.toNat_of_nonneg h0
    rw [hd, extractInt_digits ws _ '\n' rest old hws h1 h2 (by decide) (by rw [hv]; exact hmax), hv]
  · obtain ⟨h1, h2, h3⟩ := toDigits_spec (-v).toNat
    have hv : -((digitsVal (Nat.toDigits 10 (-v).toNat) : Nat) : Int) = v := by
      rw [h3, Int.toNat_of_nonneg (by omega)]; omega
    rw [hd, extractInt_neg_digits ws _ '\n' rest old hws h1 h2 (by decide)
      (by rw [hv]; exact hmin), hv]

/-! ## The validation loop on typed input -/

theorem not_inRange_iff (v : Int) : inRange v = false ↔ (v < 0 ∨ v > 2) := by
  unfold inRange
  constructor
  · intro h
    by_contra hc
    have : 0 ≤ v ∧ v ≤ 2 := by omega
    simp [this.1, this.2] at h
  · intro h
    rcases h with h | h
    · have : ¬ (0 ≤ v) := by omega
      simp [this]
    · have : ¬ (v ≤ 2) := by omega
      simp [this]

theorem inRange_iff (v : Int) : inRange v = true ↔ (0 ≤ v ∧ v ≤ 2) := by
  unfold inRange; simp

theorem readValid_typed (tail : List Char) : ∀ (vs : List Int),
    (∀ v ∈ vs, INT_MIN ≤ v ∧ v ≤ INT_MAX) → (∃ v ∈ vs, inRange v = true) →
    ∀ (ws : List Char) (g : Int) (out : List String) (fuel : Nat),
    (∀ x ∈ ws, isspace x = true) → skippedBefore vs < fuel →
    whileInvalid fuel (extractInt ⟨ws ++ (typed vs ++ tail), true⟩ g).1
        (extractInt ⟨ws ++ (typed vs ++ tail), true⟩ g).2 out =
      some (firstValid vs, ⟨'\n' :: (typed (afterValid vs) ++ tail), true⟩,
        out ++ List.replicate (skippedBefore vs) invalidMsg) := by
  intro vs
  induction vs with
  | nil => intro _ h; obtain ⟨v, hv, _⟩ := h; cases hv
  | cons v vs ih =>
    intro hb hex ws g out fuel hws hfuel
    have hv := hb v (List.mem_cons_self _ _)
    have hbs : ∀ x ∈ vs, INT_MIN ≤ x ∧ x ≤ INT_MAX := fun x hx => hb x (List.mem_cons_of_mem _ hx)
    have hty : typed (v :: vs) ++ tail = (toString v).data ++ '\n' :: (typed vs ++ tail) := by
      simp [typed]
    rw [hty, extractInt_typed ws v _ g hws hv.1 hv.2]
    obtain ⟨f, rfl⟩ : ∃ f, fuel = f + 1 := ⟨fuel - 1, by omega⟩
    by_cases hin : inRange v = true
    · have hc : ¬ (v < 0 ∨ v > 2) := by
        have := (inRange_iff v).1 hin; omega
      simp [whileInvalid, hc, firstValid, afterValid, skippedBefore, hin]
    · have hin' : inRange v = false := by simpa using hin
      have hc : v < 0 ∨ v > 2 := (not_inRange_iff v).1 hin'
      have hex' : ∃ x ∈ vs, inRange x = true := by
        obtain ⟨x, hx, hxr⟩ := hex
        rcases List.mem_cons.1 hx with rfl | hx
        · exact absurd hxr hin
        · exact ⟨x, hx, hxr⟩
      have hf : skippedBefore vs < f := by
        simp only [skippedBefore, hin', Bool.false_eq_true, if_false] at hfuel; omega
      have := ih hbs hex' ['\n'] v (out ++ [invalidMsg]) f (by simp [isspace]) hf
      simp only [List.singleton_append] at this
      simp only [whileInvalid, hc, if_true, this, firstValid, afterValid, skippedBefore, hin',
        Bool.false_eq_true, if_false, List.replicate_succ, List.append_assoc,
        List.singleton_append]

/-! ## The loop over the questions on typed input -/

theorem filter_inRange_eq : ∀ (vs : List Int), (∃ v ∈ vs, inRange v = true) →
    vs.filter inRange = firstValid vs :: (afterValid vs).filter inRange := by
  intro vs
  induction vs with
  | nil => intro h; obtain ⟨v, hv, _⟩ := h; cases hv
  | cons v vs ih =>
    intro hex
    by_cases hin : inRange v = true
    · simp [List.filter, hin, firstValid, afterValid]
    · have hin' : inRange v = false := by simpa using hin
      have hex' : ∃ x ∈ vs, inRange x = true := by
        obtain ⟨x, hx, hxr⟩ := hex
        rcases List.mem_cons.1 hx with rfl | hx
        · exact absurd hxr hin
        · exact ⟨x, hx, hxr⟩
      simp [List.filter, hin', firstValid, afterValid, ih hex']

theorem exists_inRange_of_filter (vs : List Int) (h : 0 < (vs.filter inRange).length) :
    ∃ v ∈ vs, inRange v = true := by
  obtain ⟨v, hv⟩ := List.exists_mem_of_length_pos h
  exact ⟨v, (List.mem_filter.1 hv).1, (List.mem_filter.1 hv).2⟩

theorem afterValid_sub : ∀ (vs : List Int), (∀ x ∈ afterValid vs, x ∈ vs) ∧
    ((afterValid vs).filter (fun v => !inRange v)).length ≤
      (vs.filter (fun v => !inRange v)).length ∧
    skippedBefore vs ≤ (vs.filter (fun v => !inRange v)).length := by
  intro vs
  induction vs with
  | nil => simp [afterValid, skippedBefore]
  | cons v vs ih =>
    by_cases hin : inRange v = true
    · simp [afterValid, skippedBefore, hin]
      intro x hx; exact Or.inr hx
    · have hin' : inRange v = false := by simpa using hin
      simp only [afterValid, skippedBefore, hin', Bool.false_eq_true, if_false, List.filter,
        Bool.not_false, List.length_cons]
      refine ⟨fun x hx => List.mem_cons_of_mem _ (ih.1 x hx), by omega, by omega⟩

theorem forLoop_typed (tail : List Char) (g : Nat → Int) : ∀ (n : Nat) (vs : List Int) (i : Nat)
    (st : LoopState) (ws : List Char) (fuel : Nat),
    (∀ v ∈ vs, INT_MIN ≤ v ∧ v ≤ INT_MAX) → n ≤ (vs.filter inRange).length →
    (∀ x ∈ ws, isspace x = true) → (vs.filter (fun v => !inRange v)).length < fuel →
    st.cin = ⟨ws ++ (typed vs ++ tail), true⟩ →
    ∃ st1 ws1, forLoop fuel g n i st = some st1 ∧
      st1.responses = st.responses ++ (vs.filter inRange).take n ∧
      st1.totalScore = st.totalScore + ((vs.filter inRange).take n).sum ∧
      st1.out = st.out ++ dialogue n i vs ∧
      (∀ x ∈ ws1, isspace x = true) ∧
      st1.cin = ⟨ws1 ++ (typed (remaining n vs) ++ tail), true⟩ := by
  intro n
  induction n with
  | zero =>
    intro vs i st ws fuel _ _ hws _ hcin
    exact ⟨st, ws, rfl, by simp, by simp, by simp [dialogue], hws, by simpa [remaining] using hcin⟩
  | succ n ih =>
    intro vs i st ws fuel hb hn hws hfuel hcin
    have hex := exists_inRange_of_filter vs (by omega)
    have hfil := filter_inRange_eq vs hex
    obtain ⟨hsub, hlen, hsk⟩ := afterValid_sub vs
    have hrd := readValid_typed tail vs hb hex ws (g i) (st.out ++ [questions.getD i "" ++ "\n", promptMsg])
      fuel hws (by omega)
    have hn' : n ≤ ((afterValid vs).filter inRange).length := by
      rw [hfil] at hn; simpa using hn
    obtain ⟨st1, ws1, h1, h2, h3, h4, h5, h6⟩ :=
      ih (afterValid vs) (i + 1)
        { cin := ⟨'\n' :: (typed (afterValid vs) ++ tail), true⟩
          responses := st.responses ++ [firstValid vs]
          totalScore := st.totalScore + firstValid vs
          out := st.out ++ [questions.getD i "" ++ "\n", promptMsg] ++
            List.replicate (skippedBefore vs) invalidMsg ++ [progressMsg i] }
        ['\n'] fuel (fun v hv => hb v (hsub v hv)) hn' (by simp [isspace]) (by omega) rfl
    refine ⟨st1, ws1, ?_, ?_, ?_, ?_, h5, ?_⟩
    · simp only [forLoop, askQuestion, hcin, hrd]
      exact h1
    · rw [h2, hfil]; simp
    · rw [h3, hfil]; simp [Int.add_assoc]
    · rw [h4]; simp [dialogue]
    · rw [h6]; rfl

/-! ## Invariants of the loop over the questions -/

theorem whileInvalid_accepts : ∀ (fuel : Nat) (v : Int) (cin : IStream) (out : List String)
    (r : Int × IStream × List String), whileInvalid fuel v cin out = some r →
    (0 ≤ r.1 ∧ r.1 ≤ 2) ∧ ∀ s ∈ r.2.2, s ∈ out ∨ s = invalidMsg := by
  intro fuel
  induction fuel with
  | zero => intro v cin out r h; simp [whileInvalid] at h
  | succ fuel ih =>
    intro v cin out r h
    by_cases hc : v < 0 ∨ v > 2
    · simp only [whileInvalid, hc, if_true] at h
      obtain ⟨h1, h2⟩ := ih _ _ _ _ h
      refine ⟨h1, fun s hs => ?_⟩
      rcases h2 s hs with h3 | h3
      · rcases List.mem_append.1 h3 with h4 | h4
        · exact Or.inl h4
        · exact Or.inr (by simpa using h4)
      · exact Or.inr h3
    · simp only [whileInvalid, hc, if_false, Option.some.injEq] at h
      subst h
      exact ⟨by omega, fun s hs => Or.inl hs⟩

theorem askQuestion_spec (fuel : Nat) (g : Int) (i : Nat) (st st1 : LoopState)
    (h : askQuestion fuel g i st = some st1) :
    ∃ v, (0 ≤ v ∧ v ≤ 2) ∧ st1.responses = st.responses ++ [v] ∧
      st1.totalScore = st.totalScore + v ∧
      ∀ s ∈ st1.out, s ∈ st.out ∨ s = questions.getD i "" ++ "\n" ∨ s = promptMsg ∨
        s = invalidMsg ∨ s = progressMsg i := by
  unfold askQuestion at h
  split at h
  · cases h
  · rename_i v cin out heq
    simp only [Option.some.injEq] at h
    subst h
    obtain ⟨h1, h2⟩ := whileInvalid_accepts _ _ _ _ _ heq
    refine ⟨v, h1, rfl, rfl, fun s hs => ?_⟩
    rcases List.mem_append.1 hs with h3 | h3
    · rcases h2 s h3 with h4 | h4
      · rcases List.mem_append.1 h4 with h5 | h5
        · exact Or.inl h5
        · simp only [List.mem_cons, List.mem_singleton, List.not_mem_nil, or_false] at h5
          rcases h5 with h5 | h5
          · exact Or.inr (Or.inl h5)
          · exact Or.inr (Or.inr (Or.inl h5))
      · exact Or.inr (Or.inr (Or.inr (Or.inl h4)))
    · exact Or.inr (Or.inr (Or.inr (Or.inr (by simpa using h3))))

theorem forLoop_spec (fuel : Nat) (g : Nat → Int) : ∀ (n i : Nat) (st st1 : LoopState),
    forLoop fuel g n i st = some st1 →
    ∃ new : List Int, new.length = n ∧ (∀ v ∈ new, 0 ≤ v ∧ v ≤ 2) ∧
      st1.responses = st.responses ++ new ∧ st1.totalScore = st.totalScore + new.sum ∧
      ∀ s ∈ st1.out, s ∈ st.out ∨ ∃ j, i ≤ j ∧ j < i + n ∧
        (s = questions.getD j "" ++ "\n" ∨ s = promptMsg ∨ s = invalidMsg ∨
          s = progressMsg j) := by
  intro n
  induction n with
  | zero =>
    intro i st st1 h
    simp only [forLoop, Option.some.injEq] at h
    subst h
    exact ⟨[], rfl, by simp, by simp, by simp, fun s hs => Or.inl hs⟩
  | succ n ih =>
    intro i st st1 h
    unfold forLoop at h
    split at h
    · cases h
    · rename_i st2 heq
      obtain ⟨v, hv, hr, ht, ho⟩ := askQuestion_spec _ _ _ _ _ heq
      obtain ⟨new, hl, hn, hr2, ht2, ho2⟩ := ih _ _ _ h
      refine ⟨v :: new, by simp [hl], ?_, ?_, ?_, ?_⟩
      · intro x hx
        rcases List.mem_cons.1 hx with rfl | hx
        · exact hv
        · exact hn x hx
      · rw [hr2, hr]; simp
      · rw [ht2, ht]; simp [Int.add_assoc]
      · intro s hs
        rcases ho2 s hs with h1 | ⟨j, hj1, hj2, hj3⟩
        · rcases ho s h1 with h2 | h2
          · exact Or.inl h2
          · exact Or.inr ⟨i, le_refl _, by omega, h2⟩
        · exact Or.inr ⟨j, by omega, by omega, hj3⟩

theorem sum_bounds : ∀ (l : List Int), (∀ v ∈ l, 0 ≤ v ∧ v ≤ 2) →
    0 ≤ l.sum ∧ l.sum ≤ 2 * l.length := by
  intro l
  induction l with
  | nil => simp
  | cons a l ih =>
    intro h
    have ha := h a (List.mem_cons_self _ _)
    have := ih (fun v hv => h v (List.mem_cons_of_mem _ hv))
    simp only [List.sum_cons, List.length_cons, Nat.cast_add, Nat.cast_one]
    omega

/-! ## Files, characters and lines -/

theorem logFile_ne_reminderFileName : logFile ≠ reminderFileName := by decide

theorem appendFile_same (fs : Files) (name text : String) :
    appendFile fs name text name = some ((fs name).getD "" ++ text) := by
  simp [appendFile]

theorem appendFile_other (fs : Files) (name text n : String) (h : n ≠ name) :
    appendFile fs name text n = fs n := by
  simp [appendFile, h]

theorem toLower_eq_y (a : Char) : a.toLower = 'y' ↔ (a = 'y' ∨ a = 'Y') := by
  constructor
  · intro h
    unfold Char.toLower at h
    simp only [] at h
    split_ifs at h with hc
    · right
      have h2 : a = Char.ofNat a.toNat := (Char.ofNat_toNat a).symm
      obtain ⟨h3, h4⟩ := hc
      generalize a.toNat = k at h h2 h3 h4
      subst h2
      interval_cases k <;> first | rfl | exact absurd h (by decide)
    · left; exact h
  · rintro (rfl | rfl) <;> decide

theorem getline_line (note rest : List Char) (old : String) (h : '\n' ∉ note) :
    getline ⟨note ++ '\n' :: rest, true⟩ old = (String.mk note, ⟨rest, true⟩) := by
  have htd := takeWhile_append_stop (p := fun x => x != '\n') note '\n' rest
    (fun x hx => by
      have : x ≠ '\n' := fun e => h (e ▸ hx)
      simpa using this) (by simp)
  unfold getline
  cases hb : note ++ '\n' :: rest with
  | nil => simp at hb
  | cons c cs =>
    simp only [if_true]
    rw [← hb, htd.1, htd.2]
    rfl

/-! ## The phases of a run -/

theorem run_of_loop (fuel : Nat) (env : Env) (userName : String) (isCaregiver : Bool)
    (cin : IStream) (fs : Files) (st : LoopState)
    (h : forLoop fuel env.responses0 NUM_QUESTIONS 0 ⟨cin, [], 0, []⟩ = some st) :
    runAssessment fuel env userName isCaregiver cin fs =
      some { world := caregiver env isCaregiver
               (reminder env userName (report env userName isCaregiver st fs)).1
             responses := st.responses
             totalScore := st.totalScore
             reminderChoice := (reminder env userName (report env userName isCaregiver st fs)).2 } := by
  simp only [runAssessment, h]

theorem loop_of_run (fuel : Nat) (env : Env) (userName : String) (isCaregiver : Bool)
    (cin : IStream) (fs : Files) (res : Outcome)
    (h : runAssessment fuel env userName isCaregiver cin fs = some res) :
    ∃ st, forLoop fuel env.responses0 NUM_QUESTIONS 0 ⟨cin, [], 0, []⟩ = some st ∧
      res = { world := caregiver env isCaregiver
               (reminder env userName (report env userName isCaregiver st fs)).1
              responses := st.responses
              totalScore := st.totalScore
              reminderChoice :=
                (reminder env userName (report env userName isCaregiver st fs)).2 } := by
  unfold runAssessment at h
  split at h
  · cases h
  · rename_i st heq
    simp only [Option.some.injEq] at h
    exact ⟨st, heq, h.symm⟩

theorem reminder_choice (env : Env) (userName : String) (w : World) :
    (reminder env userName w).2 = (extractInt w.cin env.reminderChoice0).1 ∧
    (reminder env userName w).1.cin = (extractInt w.cin env.reminderChoice0).2 := by
  unfold reminder
  simp only []
  split_ifs <;> exact ⟨rfl, rfl⟩

theorem reminder_fs (env : Env) (userName : String) (w : World) :
    (reminder env userName w).1.fs =
      if (reminder env userName w).2 = 1 ∨ (reminder env userName w).2 = 2 then
        appendFile w.fs reminderFileName (reminderLine userName
          (env.ctime (env.now + (reminder env userName w).2 * 7 * 24 * 60 * 60)))
      else w.fs := by
  unfold reminder
  simp only []
  split_ifs <;> rfl

theorem caregiver_fs (env : Env) (isCaregiver : Bool) (w : World) :
    (caregiver env isCaregiver w).fs = w.fs ∨
    (isCaregiver = true ∧ ∃ note, (caregiver env isCaregiver w).fs =
      appendFile w.fs logFile (noteLine note)) := by
  unfold caregiver
  simp only []
  split_ifs with h1 h2
  · exact Or.inr ⟨h1, _, rfl⟩
  · exact Or.inl rfl
  · exact Or.inl rfl

theorem caregiver_not (env : Env) (w : World) : (caregiver env false w).fs = w.fs := by
  simp [caregiver]

theorem caregiver_typed (env : Env) (w : World) (ws : List Char) (a x : Char)
    (note rest : List Char) (hws : ∀ c ∈ ws, isspace c = true) (ha : isspace a = false)
    (hnote : '\n' ∉ note) (hcin : w.cin = ⟨ws ++ a :: x :: (note ++ '\n' :: rest), true⟩) :
    (caregiver env true w).fs =
      if a = 'y' ∨ a = 'Y' then appendFile w.fs logFile (noteLine (String.mk note))
      else w.fs := by
  have hsk : skipws (ws ++ a :: x :: (note ++ '\n' :: rest)) = a :: x :: (note ++ '\n' :: rest) := by
    rw [skipws_append _ _ hws]
    simp [skipws, List.dropWhile, ha]
  have hex : extractChar w.cin env.noteChoice0 = (a, ⟨x :: (note ++ '\n' :: rest), true⟩) := by
    simp [extractChar, hcin, hsk]
  have hig : ignore ⟨x :: (note ++ '\n' :: rest), true⟩ = ⟨note ++ '\n' :: rest, true⟩ := by
    simp [ignore]
  unfold caregiver
  simp only [hex, hig, if_true, toLower_eq_y, getline_line note rest "" hnote]
  split_ifs <;> rfl

/-! ## The assessment log after a run -/

theorem report_fs (env : Env) (userName : String) (isCaregiver : Bool) (st : LoopState)
    (fs : Files) :
    (report env userName isCaregiver st fs).fs =
      appendFile fs logFile (logEntry userName isCaregiver (env.ctime env.now) st.totalScore) ∧
    (report env userName isCaregiver st fs).cin = st.cin := ⟨rfl, rfl⟩

theorem reminder_log (env : Env) (userName : String) (w : World) :
    (reminder env userName w).1.fs logFile = w.fs logFile := by
  rw [reminder_fs]
  split_ifs
  · exact appendFile_other _ _ _ _ logFile_ne_reminderFileName
  · rfl

/-- The assessment log after a completed run: what it held, the new entry, and at most one
caregiver note. -/
theorem run_log (fuel : Nat) (env : Env) (userName : String) (isCaregiver : Bool)
    (cin : IStream) (fs : Files) (res : Outcome)
    (h : runAssessment fuel env userName isCaregiver cin fs = some res) :
    ∃ suffix, res.world.fs logFile = some ((fs logFile).getD "" ++
        logEntry userName isCaregiver (env.ctime env.now) res.totalScore ++ suffix) ∧
      (suffix = "" ∨ (isCaregiver = true ∧ ∃ note, suffix = noteLine note)) := by
  obtain ⟨st, _, rfl⟩ := loop_of_run _ _ _ _ _ _ _ h
  have h2 := reminder_log env userName (report env userName isCaregiver st fs)
  rw [(report_fs env userName isCaregiver st fs).1, appendFile_same] at h2
  rcases caregiver_fs env isCaregiver
      (reminder env userName (report env userName isCaregiver st fs)).1 with h3 | ⟨hc, note, h3⟩
  · exact ⟨"", by simp only [h3, h2, String.append_empty], Or.inl rfl⟩
  · refine ⟨noteLine note, ?_, Or.inr ⟨hc, note, rfl⟩⟩
    simp only [h3, appendFile_same, h2, Option.getD_some]

/-! ## Bounds of the total score -/

theorem caregiver_reminders (env : Env) (isCaregiver : Bool) (w : World) (n : String)
    (hn : n ≠ logFile) : (caregiver env isCaregiver w).fs n = w.fs n := by
  rcases caregiver_fs env isCaregiver w with h | ⟨_, note, h⟩
  · rw [h]
  · rw [h, appendFile_other _ _ _ _ hn]

theorem logEntry_text (userName : String) (isCaregiver : Bool) (dt : String) (t : Int) :
    logEntry userName isCaregiver dt t =
      "------------------------------------------\n" ++ "User: " ++ userName ++
      (if isCaregiver then " (Caregiver)" else "") ++ "\nDate: " ++ dt ++
      "Score: " ++ toString t ++ " / 20\n" ++
      "Risk Level: " ++ (classify t).1 ++ "\n" ++
      "Recommendation: " ++ (classify t).2 ++ "\n" := by
  have h20 : toString (NUM_QUESTIONS * 2) = "20" := by decide
  have hs : ∀ X : String, " / " ++ ("20" ++ ("\n" ++ X)) = " / 20\n" ++ X := by
    intro X
    rw [← String.append_assoc, ← String.append_assoc]
    rfl
  simp only [logEntry, h20, String.append_assoc, hs]

/-- C5: for every completed run, whatever was typed, the total score written after
"Score: " in the new log entry lies between 0 and 20 = 2 * NUM_QUESTIONS; the run recorded
exactly NUM_QUESTIONS responses, each between 0 and 2. -/
theorem totalScore_bounds (fuel : Nat) (env : Env) (userName : String) (isCaregiver : Bool)
    (cin : IStream) (fs : Files) (res : Outcome)
    (h : runAssessment fuel env userName isCaregiver cin fs = some res) :
    0 ≤ res.totalScore ∧ res.totalScore ≤ 20 ∧ res.totalScore ≤ 2 * (NUM_QUESTIONS : Int) ∧
    res.totalScore = res.responses.sum ∧
    res.responses.length = NUM_QUESTIONS ∧ (∀ v ∈ res.responses, 0 ≤ v ∧ v ≤ 2) ∧
    ∃ suffix, res.world.fs logFile = some ((fs logFile).getD "" ++
      logEntry userName isCaregiver (env.ctime env.now) res.totalScore ++ suffix) := by
  obtain ⟨suffix, hlog, _⟩ := run_log _ _ _ _ _ _ _ h
  obtain ⟨st, hloop, rfl⟩ := loop_of_run _ _ _ _ _ _ _ h
  obtain ⟨new, hlen, hnew, hr, ht, _⟩ := forLoop_spec _ _ _ _ _ _ hloop
  simp only [List.nil_append, zero_add] at hr ht
  have hb := sum_bounds new hnew
  have h10 : (NUM_QUESTIONS : Int) = 10 := rfl
  have hl10 : ((new.length : Nat) : Int) = 10 := by rw [hlen]; rfl
  refine ⟨?_, ?_, ?_, ?_, ?_, ?_, suffix, hlog⟩
  · show 0 ≤ st.totalScore
    omega
  · show st.totalScore ≤ 20
    omega
  · show st.totalScore ≤ 2 * (NUM_QUESTIONS : Int)
    omega
  · show st.totalScore = st.responses.sum
    rw [ht, hr]
  · show st.responses.length = NUM_QUESTIONS
    rw [hr, hlen]
  · intro v hv
    exact hnew v (hr ▸ hv)

theorem totalScore_bounds_witness :
    ∃ res, runAssessment 3 sampleEnv "Ann" false
        ⟨"2\n7\n-4\n2\n2\n2\n2\n0\n0\n0\n0\n0\n0\n".data, true⟩ noFiles = some res ∧
      res.totalScore = 10 ∧ 0 ≤ res.totalScore ∧ res.totalScore ≤ 20 := by
  cases h : runAssessment 3 sampleEnv "Ann" false
      ⟨"2\n7\n-4\n2\n2\n2\n2\n0\n0\n0\n0\n0\n0\n".data, true⟩ noFiles with
  | none => exact absurd (congrArg Option.isSome h) (by decide)
  | some res =>
    have hb := totalScore_bounds _ _ _ _ _ _ res h
    have ht : Option.map (fun r => r.totalScore) (runAssessment 3 sampleEnv "Ann" false
      ⟨"2\n7\n-4\n2\n2\n2\n2\n0\n0\n0\n0\n0\n0\n".data, true⟩ noFiles) = some 10 := by decide
    rw [h] at ht
    exact ⟨res, rfl, by simpa using ht, hb.1, hb.2.1⟩

/-! ## Reminders -/

theorem viewPastResults_files (fs : Files) : (viewPastResults fs).2 = fs := by
  unfold viewPastResults
  split <;> rfl

/-- The assessment log when the input after the questions is well formed. After a completed
run the log holds what it held before (nothing when it was absent), followed by exactly one new
entry: the line of dashes, "User: <name>" with " (Caregiver)" exactly when the caregiver flag
is set, "Date: <timestamp>", "Score: <total> / 20", "Risk Level: <tier>",
"Recommendation: <text>". Without the caregiver flag nothing follows the entry. With the flag,
when the reminder choice `c` fits an `int` and is typed as a numeral, followed by the answer `a`
to the note prompt, one ASCII character (discarded) and the note, the line
"Caregiver Note: <note>" follows the entry exactly when `a` is `y` or `Y`. No other file than
the log and the reminder file changes, and `viewPastResults` leaves the files as they are. -/
theorem log_append_only (fuel : Nat) (env : Env) (userName : String) (isCaregiver : Bool)
    (cin : IStream) (fs : Files) (st : LoopState) (c : Int) (ws ws2 : List Char) (a x : Char)
    (note rest : List Char)
    (hloop : forLoop fuel env.responses0 NUM_QUESTIONS 0 ⟨cin, [], 0, []⟩ = some st)
    (hcin : isCaregiver = true → st.cin =
      ⟨ws ++ ((toString c).data ++ '\n' :: (ws2 ++ a :: x :: (note ++ '\n' :: rest))), true⟩)
    (hws : ∀ y ∈ ws, isspace y = true) (hmin : INT_MIN ≤ c) (hmax : c ≤ INT_MAX)
    (hws2 : ∀ y ∈ ws2, isspace y = true) (ha : isspace a = false) (_hx : x.toNat < 128)
    (hnote : '\n' ∉ note) :
    ∃ res, runAssessment fuel env userName isCaregiver cin fs = some res ∧
      res.world.fs logFile = some ((fs logFile).getD "" ++
        ("------------------------------------------\n" ++ "User: " ++ userName ++
          (if isCaregiver then " (Caregiver)" else "") ++ "\nDate: " ++ env.ctime env.now ++
          "Score: " ++ toString res.totalScore ++ " / 20\n" ++
          "Risk Level: " ++ (classify res.totalScore).1 ++ "\n" ++
          "Recommendation: " ++ (classify res.totalScore).2 ++ "\n") ++
        (if isCaregiver = true ∧ (a = 'y' ∨ a = 'Y') then
          "Caregiver Note: " ++ String.mk note ++ "\n" else "")) ∧
      (∀ n, n ≠ logFile → n ≠ reminderFileName → res.world.fs n = fs n) ∧
      (viewPastResults res.world.fs).2 = res.world.fs := by
  refine ⟨_, run_of_loop fuel env userName isCaregiver cin fs st hloop, ?_, ?_,
    viewPastResults_files _⟩
  · show (caregiver env isCaregiver _).fs logFile = _
    have hlog := reminder_log env userName (report env userName isCaregiver st fs)
    rw [(report_fs env userName isCaregiver st fs).1, appendFile_same] at hlog
    rw [← logEntry_text]
    cases isCaregiver with
    | false =>
      rw [caregiver_not, hlog]
      simp
    | true =>
      have hc2 : (reminder env userName (report env userName true st fs)).1.cin =
          ⟨('\n' :: ws2) ++ a :: x :: (note ++ '\n' :: rest), true⟩ := by
        rw [(reminder_choice _ _ _).2, (report_fs _ _ _ _ _).2, hcin rfl,
          extractInt_typed ws c _ _ hws hmin hmax]
        rfl
      have hws3 : ∀ y ∈ '\n' :: ws2, isspace y = true := by
        intro y hy
        rcases List.mem_cons.1 hy with rfl | hy
        · rfl
        · exact hws2 y hy
      rw [caregiver_typed env _ ('\n' :: ws2) a x note rest hws3 ha hnote hc2]
      by_cases hy : a = 'y' ∨ a = 'Y'
      · simp only [hy, if_true, and_self, appendFile_same, hlog, Option.getD_some, noteLine]
      · simp only [hy, if_false, and_false, hlog, String.append_empty]
  · intro n h1 h2
    show (caregiver env isCaregiver _).fs n = _
    rw [caregiver_reminders _ _ _ _ h1, reminder_fs]
    split_ifs
    · rw [appendFile_other _ _ _ _ h2, (report_fs _ _ _ _ _).1, appendFile_other _ _ _ _ h1]
    · rw [(report_fs _ _ _ _ _).1, appendFile_other _ _ _ _ h1]

theorem log_append_only_witness :
    ∃ res, runAssessment 1 sampleEnv "Ann" true
        ⟨"2\n2\n2\n2\n2\n0\n0\n0\n0\n0\n0\nY\nslept badly\n3\n".data, true⟩
        (fun n => if n = logFile then some "earlier text\n" else none) = some res ∧
      res.world.fs logFile = some ("earlier text\n" ++
        ("------------------------------------------\nUser: Ann (Caregiver)\nDate: 1000\n" ++
          "Score: 10 / 20\nRisk Level: 🟠 Moderate Concern\nRecommendation: " ++
          (classify 10).2 ++ "\n") ++ "Caregiver Note: slept badly\n") := by
  obtain ⟨res, h1, h2, _⟩ := log_append_only 1 sampleEnv "Ann" true
    ⟨"2\n2\n2\n2\n2\n0\n0\n0\n0\n0\n0\nY\nslept badly\n3\n".data, true⟩
    (fun n => if n = logFile then some "earlier text\n" else none)
    (sampleLoop 1 sampleEnv "2\n2\n2\n2\n2\n0\n0\n0\n0\n0\n0\nY\nslept badly\n3\n")
    0 ['\n'] [] 'Y' '\n' "slept badly".data "3\n".data
    (by decide) (fun _ => by decide) (by decide) (by decide) (by decide) (by decide)
    (by decide) (by decide) (by decide)
  have ht : Option.map (fun r => r.totalScore) (runAssessment 1 sampleEnv "Ann" true
      ⟨"2\n2\n2\n2\n2\n0\n0\n0\n0\n0\n0\nY\nslept badly\n3\n".data, true⟩
      (fun n => if n = logFile then some "earlier text\n" else none)) = some 10 := by decide
  rw [h1] at ht
  have ht2 : res.totalScore = 10 := by simpa using ht
  rw [ht2] at h2
  exact ⟨res, h1, h2⟩

/-! ## Reading the log back -/

theorem split_line : ∀ (buf : List Char), buf.getLast? = some '\n' →
    ∃ line rest, buf = line ++ '\n' :: rest ∧ '\n' ∉ line ∧
      (rest = [] ∨ rest.getLast? = some '\n') := by
  intro buf
  induction buf with
  | nil => intro h; simp at h
  | cons c cs ih =>
    intro h
    by_cases hc : c = '\n'
    · subst hc
      refine ⟨[], cs, rfl, by simp, ?_⟩
      cases cs with
      | nil => exact Or.inl rfl
      | cons d ds => exact Or.inr (by simpa using h)
    · cases cs with
      | nil => simp at h; exact absurd h hc
      | cons d ds =>
        rw [List.getLast?_cons_cons] at h
        obtain ⟨line, rest, h1, h2, h3⟩ := ih h
        refine ⟨c :: line, rest, by rw [h1]; rfl, ?_, h3⟩
        intro hm
        rcases List.mem_cons.1 hm with h4 | h4
        · exact hc h4.symm
        · exact h2 h4

theorem readLines_spec : ∀ (fuel : Nat) (buf : List Char) (out : List String),
    buf.length < fuel → (buf = [] ∨ buf.getLast? = some '\n') →
    ∃ lines : List (List Char),
      readLines fuel ⟨buf, true⟩ out = out ++ lines.map (fun l => String.mk l ++ "\n") ∧
      (lines.map (fun l => l ++ ['\n'])).flatten = buf ∧ ∀ l ∈ lines, '\n' ∉ l := by
  intro fuel
  induction fuel with
  | zero => intro buf out h; omega
  | succ fuel ih =>
    intro buf out hlen hend
    by_cases hnil : buf = []
    · subst hnil
      exact ⟨[], by simp [readLines, getline], rfl, by simp⟩
    · have hlast : buf.getLast? = some '\n' := by
        rcases hend with h | h
        · exact absurd h hnil
        · exact h
      obtain ⟨line, rest, h1, h2, h3⟩ := split_line buf hlast
      subst h1
      have hr : rest.length < fuel := by
        simp only [List.length_append, List.length_cons] at hlen; omega
      obtain ⟨lines, h4, h5, h6⟩ := ih rest (out ++ [String.mk line ++ "\n"]) hr h3
      refine ⟨line :: lines, ?_, ?_, ?_⟩
      · simp only [readLines, getline_line line rest "" h2, if_true, h4, List.map_cons,
          List.append_assoc, List.singleton_append]
      · simp [h5]
      · intro l hl
        rcases List.mem_cons.1 hl with rfl | hl
        · exact h2
        · exact h6 l hl

theorem logEntry_ends (userName : String) (isCaregiver : Bool) (dt : String) (t : Int) :
    ∃ pre : String, logEntry userName isCaregiver dt t = pre ++ "\n" := by
  unfold logEntry
  exact ⟨_, (String.append_assoc _ _ _).symm⟩

theorem view_content (fs : Files) (content : String) (h : fs logFile = some content)
    (hend : content.data = [] ∨ content.data.getLast? = some '\n') :
    ∃ lines : List String,
      (viewPastResults fs).1 =
        ["\n📁 Displaying past results:\n", separator] ++ lines.map (fun l => l ++ "\n") ∧
      String.join (lines.map (fun l => l ++ "\n")) = content ∧
      ∀ l ∈ lines, '\n' ∉ l.data := by
  obtain ⟨lines, h1, h2, h3⟩ := readLines_spec (content.length + 1) content.data
    ["\n📁 Displaying past results:\n", separator] (Nat.lt_succ_self _) hend
  refine ⟨lines.map String.mk, ?_, ?_, ?_⟩
  · simp only [viewPastResults, h, h1, List.map_map]
    rfl
  · apply String.ext
    rw [String.data_join, ← h2]
    simp only [List.map_map]
    congr 1
  · intro l hl
    obtain ⟨l0, hl0, rfl⟩ := List.mem_map.1 hl
    exact h3 l0 hl0

theorem data_append_newline (s : String) : (s ++ "\n").data.getLast? = some '\n' := by
  rw [String.data_append]
  exact List.getLast?_concat _

/-- C9: round trip between the log and the viewer. After a completed run, whatever the log
held before (so also after any number of earlier runs), `viewPastResults` writes its two header
chunks and then one chunk per line of the log, each line followed by a newline; the
concatenation of those chunks is the content of the log, character for character and in file
order, the earlier content first. -/
theorem view_roundtrip (fuel : Nat) (env : Env) (userName : String) (isCaregiver : Bool)
    (cin : IStream) (fs : Files) (res : Outcome)
    (h : runAssessment fuel env userName isCaregiver cin fs = some res) :
    ∃ (content : String) (lines : List String),
      res.world.fs logFile = some content ∧
      (∃ suffix, content = (fs logFile).getD "" ++
        logEntry userName isCaregiver (env.ctime env.now) res.totalScore ++ suffix) ∧
      (viewPastResults res.world.fs).1 =
        ["\n📁 Displaying past results:\n", separator] ++ lines.map (fun l => l ++ "\n") ∧
      String.join (lines.map (fun l => l ++ "\n")) = content ∧
      ∀ l ∈ lines, '\n' ∉ l.data := by
  obtain ⟨suffix, hlog, hsuf⟩ := run_log _ _ _ _ _ _ _ h
  have hend : ((fs logFile).getD "" ++
      logEntry userName isCaregiver (env.ctime env.now) res.totalScore ++ suffix).data.getLast?
      = some '\n' := by
    rcases hsuf with rfl | ⟨_, note, rfl⟩
    · obtain ⟨pre, hpre⟩ := logEntry_ends userName isCaregiver (env.ctime env.now) res.totalScore
      rw [hpre, String.append_empty, ← String.append_assoc]
      exact data_append_newline _
    · unfold noteLine
      rw [← String.append_assoc, ← String.append_assoc]
      exact data_append_newline _
  obtain ⟨lines, h1, h2, h3⟩ := view_content res.world.fs _ hlog (Or.inr hend)
  exact ⟨_, lines, hlog, ⟨suffix, rfl⟩, h1, h2, h3⟩

theorem view_roundtrip_witness :
    ∃ (res : Outcome) (content : String) (lines : List String),
      runAssessment 1 sampleEnv "Ann" false
        ⟨"0\n0\n0\n0\n0\n0\n0\n0\n0\n0\n0\n".data, true⟩
        (fun n => if n = logFile then some "kept" else none) = some res ∧
      res.world.fs logFile = some content ∧
      (viewPastResults res.world.fs).1 =
        ["\n📁 Displaying past results:\n", separator] ++ lines.map (fun l => l ++ "\n") ∧
      String.join (lines.map (fun l => l ++ "\n")) = content := by
  cases h : runAssessment 1 sampleEnv "Ann" false
      ⟨"0\n0\n0\n0\n0\n0\n0\n0\n0\n0\n0\n".data, true⟩
      (fun n => if n = logFile then some "kept" else none) with
  | none => exact absurd (congrArg Option.isSome h) (by decide)
  | some res =>
    obtain ⟨content, lines, h1, _, h3, h4, _⟩ := view_roundtrip _ _ _ _ _ _ res h
    exact ⟨res, content, lines, rfl, h1, h3, h4⟩

/-! ## Responses recorded from typed integers -/

theorem whileInvalid_failed : ∀ (fuel : Nat) (v : Int) (buf : List Char) (out : List String),
    (v < 0 ∨ v > 2) → whileInvalid fuel v ⟨buf, false⟩ out = none := by
  intro fuel
  induction fuel with
  | zero => intro v buf out _; rfl
  | succ fuel ih =>
    intro v buf out hv
    simp only [whileInvalid, hv, if_true, extractInt, Bool.false_eq_true, if_false]
    exact ih v buf _ hv

theorem inRange_cases (v : Int) (h : 0 ≤ v ∧ v ≤ 2) : v = 0 ∨ v = 1 ∨ v = 2 := by omega

/-- Integers typed that all fit an `int`, ten of them at least in range: the loop over the
questions completes; the responses recorded are the first ten in-range values typed, in order,
each of them 0, 1 or 2; the total is their sum; every out-of-range integer typed before that is
answered by one request to enter the response again, inside the dialogue of the same question,
and adds nothing to the total; the input left is what was typed after the tenth in-range value.
The run as a whole then completes with these responses and this total. -/
theorem responses_typed (vs : List Int) (tail : List Char) (fuel : Nat) (env : Env)
    (userName : String) (isCaregiver : Bool) (fs : Files)
    (hb : ∀ v ∈ vs, INT_MIN ≤ v ∧ v ≤ INT_MAX)
    (hn : NUM_QUESTIONS ≤ (vs.filter inRange).length)
    (hfuel : (vs.filter (fun v => !inRange v)).length < fuel) :
    ∃ st ws res,
      forLoop fuel env.responses0 NUM_QUESTIONS 0 ⟨⟨typed vs ++ tail, true⟩, [], 0, []⟩ =
        some st ∧
      st.responses = (vs.filter inRange).take NUM_QUESTIONS ∧
      (∀ v ∈ st.responses, v = 0 ∨ v = 1 ∨ v = 2) ∧
      st.totalScore = ((vs.filter inRange).take NUM_QUESTIONS).sum ∧
      st.out = dialogue NUM_QUESTIONS 0 vs ∧
      (∀ x ∈ ws, isspace x = true) ∧
      st.cin = ⟨ws ++ (typed (remaining NUM_QUESTIONS vs) ++ tail), true⟩ ∧
      runAssessment fuel env userName isCaregiver ⟨typed vs ++ tail, true⟩ fs = some res ∧
      res.responses = st.responses ∧ res.totalScore = st.totalScore := by
  obtain ⟨st, ws, h1, h2, h3, h4, h5, h6⟩ :=
    forLoop_typed tail env.responses0 NUM_QUESTIONS vs 0
      ⟨⟨typed vs ++ tail, true⟩, [], 0, []⟩ [] fuel hb hn (by simp) hfuel rfl
  simp only [List.nil_append, zero_add] at h2 h3 h4
  obtain ⟨new, _, hnew, hr, _⟩ := forLoop_spec _ _ _ _ _ _ h1
  simp only [List.nil_append] at hr
  refine ⟨st, ws, _, h1, h2, ?_, h3, h4, h5, h6, run_of_loop _ _ _ _ _ _ _ h1, rfl, rfl⟩
  intro v hv
  exact inRange_cases v (hnew v (hr ▸ hv))

theorem responses_typed_witness :
    ∃ st ws res,
      forLoop 4 sampleEnv.responses0 NUM_QUESTIONS 0
        ⟨⟨typed [-1, 3, 2, 1, 0, 5, 2, 2, 2, 2, 1, 1, 0, 1] ++ [], true⟩, [], 0, []⟩ = some st ∧
      st.responses = [2, 1, 0, 2, 2, 2, 2, 1, 1, 0] ∧
      (∀ v ∈ st.responses, v = 0 ∨ v = 1 ∨ v = 2) ∧
      st.totalScore = 13 ∧
      st.out = dialogue NUM_QUESTIONS 0 [-1, 3, 2, 1, 0, 5, 2, 2, 2, 2, 1, 1, 0, 1] ∧
      (∀ x ∈ ws, isspace x = true) ∧
      st.cin = ⟨ws ++ (typed [1] ++ []), true⟩ ∧
      runAssessment 4 sampleEnv "Ann" false
        ⟨typed [-1, 3, 2, 1, 0, 5, 2, 2, 2, 2, 1, 1, 0, 1] ++ [], true⟩ noFiles = some res ∧
      res.responses = st.responses ∧ res.totalScore = st.totalScore :=
  responses_typed [-1, 3, 2, 1, 0, 5, 2, 2, 2, 2, 1, 1, 0, 1] [] 4 sampleEnv "Ann" false noFiles
    (by decide) (by decide) (by decide)

/-- C3 (evaluation at the failing input): the integer 3000000000 typed at the first question
does not fit an `int`: the extraction stores `INT_MAX` and fails, the stream is never cleared,
and the validation loop then asks again for ever. Although ten in-range values follow, no
response is ever recorded: no amount of fuel lets the loop over the questions, or the run,
complete. -/
theorem overflow_never_completes :
    (([3000000000, 0, 0, 0, 0, 0, 0, 0, 0, 0, 0] : List Int).filter inRange).length = 10 ∧
    extractInt ⟨typed [3000000000, 0, 0, 0, 0, 0, 0, 0, 0, 0, 0], true⟩ 7 =
      (INT_MAX, ⟨'\n' :: typed [0, 0, 0, 0, 0, 0, 0, 0, 0, 0], false⟩) ∧
    ¬ ∃ (fuel : Nat) (env : Env) (res : Outcome),
      runAssessment fuel env "Ann" false
        ⟨typed [3000000000, 0, 0, 0, 0, 0, 0, 0, 0, 0, 0], true⟩ noFiles = some res := by
  refine ⟨by decide, by decide, ?_⟩
  rintro ⟨fuel, env, res, h⟩
  obtain ⟨st, hloop, _⟩ := loop_of_run _ _ _ _ _ _ _ h
  have hx : ∀ g : Int, extractInt ⟨typed [3000000000, 0, 0, 0, 0, 0, 0, 0, 0, 0, 0], true⟩ g =
      (INT_MAX, ⟨'\n' :: typed [0, 0, 0, 0, 0, 0, 0, 0, 0, 0], false⟩) := by
    intro g; rfl
  have hnone : askQuestion fuel (env.responses0 0) 0
      ⟨⟨typed [3000000000, 0, 0, 0, 0, 0, 0, 0, 0, 0, 0], true⟩, [], 0, []⟩ = none := by
    simp only [askQuestion, hx]
    rw [whileInvalid_failed fuel INT_MAX _ _ (Or.inr (by decide))]
  simp only [NUM_QUESTIONS, forLoop, hnone] at hloop
  cases hloop

/-! ## Console chunks of a run -/

theorem tail_out (env : Env) (userName : String) (isCaregiver : Bool) (w : World) :
    ∃ post, (caregiver env isCaregiver (reminder env userName w).1).out = w.out ++ post ∧
      ∀ s ∈ post, s ∈
        ["Would you like to set a reminder to retake this in:\n1 week (1), 2 weeks (2), or No reminder (0)? ",
         "\n🔔 Reminder saved! You'll see this in 'NeuroScan_Reminders.txt'.\n",
         "\n💡 Weekly Brain Health Challenge:\n",
         "This week, try learning a new word each day and use it in conversation. 🧠📖\n",
         "\nWould you like to leave a caregiver note? (y/n): ",
         "Enter your caregiver note: "] := by
  unfold caregiver reminder
  simp only []
  split_ifs <;> exact ⟨_, by simp only [List.append_assoc]; rfl, by simp⟩

theorem scoreMsg_ne (userName : String) (t : Int) :
    scoreMsg userName t ≠ memoryNote1 ∧ scoreMsg userName t ≠ memoryNote2 := by
  have h20 : toString (NUM_QUESTIONS * 2) = "20" := by decide
  have hL : (scoreMsg userName t).data.reverse[2]? = some '0' := by
    unfold scoreMsg
    rw [h20]
    simp only [String.data_append]
    show (_ ++ ['2', '0'] ++ ['.', '\n']).reverse[2]? = some '0'
    simp
  constructor
  · intro h
    rw [h] at hL
    exact absurd hL (by decide)
  · intro h
    rw [h] at hL
    exact absurd hL (by decide)

theorem classMsg_ne (t : Int) :
    "\n" ++ (classify t).1 ++ "\n" ++ (classify t).2 ++ "\n" ≠ memoryNote1 ∧
    "\n" ++ (classify t).1 ++ "\n" ++ (classify t).2 ++ "\n" ≠ memoryNote2 := by
  unfold classify
  split_ifs <;> decide

theorem loopChunk_ne : ∀ j, j < 10 →
    questions.getD j "" ++ "\n" ≠ memoryNote1 ∧ progressMsg j ≠ memoryNote1 ∧
    questions.getD j "" ++ "\n" ≠ memoryNote2 ∧ progressMsg j ≠ memoryNote2 := by
  decide

/-- The note on frequent memory issues is on the console after a completed run exactly when
the first response recorded is 2. -/
theorem note_shown_iff (fuel : Nat) (env : Env) (userName : String) (isCaregiver : Bool)
    (cin : IStream) (fs : Files) (res : Outcome)
    (h : runAssessment fuel env userName isCaregiver cin fs = some res) :
    (memoryNote1 ∈ res.world.out ↔ res.responses[0]? = some 2) ∧
    (memoryNote2 ∈ res.world.out ↔ res.responses[0]? = some 2) := by
  obtain ⟨st, hloop, rfl⟩ := loop_of_run _ _ _ _ _ _ _ h
  obtain ⟨_, _, _, _, _, hout⟩ := forLoop_spec _ _ _ _ _ _ hloop
  obtain ⟨post, hpost, hmem⟩ := tail_out env userName isCaregiver
    (report env userName isCaregiver st fs)
  have hloop1 : memoryNote1 ∉ st.out ∧ memoryNote2 ∉ st.out := by
    constructor
    · intro hm
      rcases hout _ hm with h0 | ⟨j, _, hj, h1 | h1 | h1 | h1⟩
      · simp at h0
      · exact (loopChunk_ne j (by simpa [NUM_QUESTIONS] using hj)).1 h1.symm
      · exact absurd h1 (by decide)
      · exact absurd h1 (by decide)
      · exact (loopChunk_ne j (by simpa [NUM_QUESTIONS] using hj)).2.1 h1.symm
    · intro hm
      rcases hout _ hm with h0 | ⟨j, _, hj, h1 | h1 | h1 | h1⟩
      · simp at h0
      · exact (loopChunk_ne j (by simpa [NUM_QUESTIONS] using hj)).2.2.1 h1.symm
      · exact absurd h1 (by decide)
      · exact absurd h1 (by decide)
      · exact (loopChunk_ne j (by simpa [NUM_QUESTIONS] using hj)).2.2.2 h1.symm
  have hpost1 : memoryNote1 ∉ post ∧ memoryNote2 ∉ post :=
    ⟨fun hm => absurd (hmem _ hm) (by decide), fun hm => absurd (hmem _ hm) (by decide)⟩
  have hs := scoreMsg_ne userName st.totalScore
  have hc := classMsg_ne st.totalScore
  show (memoryNote1 ∈ (caregiver env isCaregiver _).out ↔ st.responses[0]? = some 2) ∧
    (memoryNote2 ∈ (caregiver env isCaregiver _).out ↔ st.responses[0]? = some 2)
  rw [hpost]
  have hsep1 : memoryNote1 ≠ separator := by decide
  have hsep2 : memoryNote2 ≠ separator := by decide
  have hsav1 : memoryNote1 ≠ "\n📄 Your results have been saved to '" ++ logFile ++ "'.\n" := by
    decide
  have hsav2 : memoryNote2 ≠ "\n📄 Your results have been saved to '" ++ logFile ++ "'.\n" := by
    decide
  have hse1 : memoryNote1 ≠ "------------------------------------------------------\n\n" := by
    decide
  have hse2 : memoryNote2 ≠ "------------------------------------------------------\n\n" := by
    decide
  have h12 : memoryNote1 ≠ memoryNote2 := by decide
  by_cases h2 : st.responses[0]? = some 2
  · simp [report, h2]
  · simp [report, h2, hloop1.1, hloop1.2, hpost1.1, hpost1.2, hsep1, hsep2, hsav1, hsav2, hse1,
      hse2, Ne.symm hs.1, Ne.symm hs.2, Ne.symm hc.1, Ne.symm hc.2]

/-! ## The total score is the sum of the responses -/

theorem loop_valid (r : List Int) (tail : List Char) (g : Nat → Int) (fuel : Nat)
    (hlen : r.length = NUM_QUESTIONS) (hv : ∀ v ∈ r, v = 0 ∨ v = 1 ∨ v = 2) (hfuel : 0 < fuel) :
    ∃ st, forLoop fuel g NUM_QUESTIONS 0 ⟨⟨typed r ++ tail, true⟩, [], 0, []⟩ = some st ∧
      st.responses = r ∧ st.totalScore = r.sum := by
  have hin : ∀ v ∈ r, inRange v = true := by
    intro v hm
    rcases hv v hm with rfl | rfl | rfl <;> decide
  have hb : ∀ v ∈ r, INT_MIN ≤ v ∧ v ≤ INT_MAX := by
    intro v hm
    rcases hv v hm with rfl | rfl | rfl <;> decide
  have hf : r.filter inRange = r := List.filter_eq_self.2 hin
  have hnf : r.filter (fun v => !inRange v) = [] := by
    rw [List.filter_eq_nil_iff]
    intro v hm
    simp [hin v hm]
  obtain ⟨st, ws, h1, h2, h3, _⟩ :=
    forLoop_typed tail g NUM_QUESTIONS r 0 ⟨⟨typed r ++ tail, true⟩, [], 0, []⟩ [] fuel hb
      (by rw [hf, hlen]) (by simp) (by rw [hnf]; exact hfuel) rfl
  rw [hf, List.take_of_length_le (by rw [hlen])] at h2 h3
  exact ⟨st, h1, by simpa using h2, by simpa using h3⟩

/-- C2: for every response vector `r` of length 10 with values in {0, 1, 2}, typed at the
prompts, the run completes, records `r`, and its total score is the arithmetic sum of `r`;
typing a permutation `p` of `r` instead gives the same total score. -/
theorem totalScore_eq_sum (r p : List Int) (tail tail1 : List Char) (fuel : Nat) (env : Env)
    (userName : String) (isCaregiver : Bool) (fs : Files)
    (hlen : r.length = NUM_QUESTIONS) (hv : ∀ v ∈ r, v = 0 ∨ v = 1 ∨ v = 2)
    (hperm : p.Perm r) (hfuel : 0 < fuel) :
    ∃ res res1,
      runAssessment fuel env userName isCaregiver ⟨typed r ++ tail, true⟩ fs = some res ∧
      res.responses = r ∧ res.totalScore = r.sum ∧
      runAssessment fuel env userName isCaregiver ⟨typed p ++ tail1, true⟩ fs = some res1 ∧
      res1.responses = p ∧ res1.totalScore = res.totalScore := by
  obtain ⟨st, h1, h2, h3⟩ := loop_valid r tail env.responses0 fuel hlen hv hfuel
  obtain ⟨st1, k1, k2, k3⟩ := loop_valid p tail1 env.responses0 fuel
    (by rw [hperm.length_eq, hlen]) (fun v hm => hv v (hperm.subset hm)) hfuel
  refine ⟨_, _, run_of_loop _ _ _ _ _ fs _ h1, h2, h3, run_of_loop _ _ _ _ _ fs _ k1, k2, ?_⟩
  show st1.totalScore = st.totalScore
  rw [k3, h3, hperm.sum_eq]

theorem totalScore_eq_sum_witness :
    ∃ res res1,
      runAssessment 1 sampleEnv "Ann" false
        ⟨typed [2, 2, 2, 2, 2, 0, 0, 0, 0, 0] ++ [], true⟩ noFiles = some res ∧
      res.responses = [2, 2, 2, 2, 2, 0, 0, 0, 0, 0] ∧
      res.totalScore = ([2, 2, 2, 2, 2, 0, 0, 0, 0, 0] : List Int).sum ∧
      runAssessment 1 sampleEnv "Ann" false
        ⟨typed [0, 2, 0, 2, 0, 2, 0, 2, 0, 2] ++ [], true⟩ noFiles = some res1 ∧
      res1.responses = [0, 2, 0, 2, 0, 2, 0, 2, 0, 2] ∧ res1.totalScore = res.totalScore :=
  totalScore_eq_sum [2, 2, 2, 2, 2, 0, 0, 0, 0, 0] [0, 2, 0, 2, 0, 2, 0, 2, 0, 2] [] [] 1
    sampleEnv "Ann" false noFiles (by decide) (by decide) (by decide) (by decide)

/-! ## The note is shown exactly for a first response of 2 -/

/-- C6: for every valid response vector `r` of length 10, typed at the prompts, the run
completes and the note on frequent memory issues (both of its lines) is on the console exactly
when the response to question 1, `r[0]`, is 2; it is absent when that response is 0 or 1; and
a second valid vector `q` with the same response to question 1 gives the same outcome, whatever
its responses to questions 2 to 10. -/
theorem memory_note_iff (r q : List Int) (tail tail1 : List Char) (fuel : Nat) (env : Env)
    (userName : String) (isCaregiver : Bool) (fs : Files)
    (hlen : r.length = NUM_QUESTIONS) (hv : ∀ v ∈ r, v = 0 ∨ v = 1 ∨ v = 2)
    (hlen1 : q.length = NUM_QUESTIONS) (hv1 : ∀ v ∈ q, v = 0 ∨ v = 1 ∨ v = 2)
    (hsame : q[0]? = r[0]?) (hfuel : 0 < fuel) :
    ∃ res res1,
      runAssessment fuel env userName isCaregiver ⟨typed r ++ tail, true⟩ fs = some res ∧
      runAssessment fuel env userName isCaregiver ⟨typed q ++ tail1, true⟩ fs = some res1 ∧
      (memoryNote1 ∈ res.world.out ↔ r[0]? = some 2) ∧
      (memoryNote2 ∈ res.world.out ↔ r[0]? = some 2) ∧
      (r[0]? = some 0 ∨ r[0]? = some 1 → memoryNote1 ∉ res.world.out) ∧
      (memoryNote1 ∈ res1.world.out ↔ memoryNote1 ∈ res.world.out) := by
  obtain ⟨st, h1, h2, _⟩ := loop_valid r tail env.responses0 fuel hlen hv hfuel
  obtain ⟨st1, k1, k2, _⟩ := loop_valid q tail1 env.responses0 fuel hlen1 hv1 hfuel
  have hr := run_of_loop fuel env userName isCaregiver _ fs _ h1
  have hq := run_of_loop fuel env userName isCaregiver _ fs _ k1
  obtain ⟨n1, n2⟩ := note_shown_iff _ _ _ _ _ _ _ hr
  obtain ⟨m1, _⟩ := note_shown_iff _ _ _ _ _ _ _ hq
  simp only [h2] at n1 n2
  simp only [k2] at m1
  refine ⟨_, _, hr, hq, n1, n2, ?_, ?_⟩
  · intro h0 hm
    have := n1.1 hm
    rcases h0 with h0 | h0 <;> rw [h0] at this <;> exact absurd this (by decide)
  · rw [m1, n1, hsame]

theorem memory_note_iff_witness :
    ∃ res res1,
      runAssessment 1 sampleEnv "Ann" false
        ⟨typed [2, 0, 0, 0, 0, 0, 0, 0, 0, 0] ++ [], true⟩ noFiles = some res ∧
      runAssessment 1 sampleEnv "Ann" false
        ⟨typed [2, 1, 2, 1, 2, 1, 2, 1, 2, 1] ++ [], true⟩ noFiles = some res1 ∧
      (memoryNote1 ∈ res.world.out ↔ ([2, 0, 0, 0, 0, 0, 0, 0, 0, 0] : List Int)[0]? = some 2) ∧
      (memoryNote1 ∈ res1.world.out ↔ memoryNote1 ∈ res.world.out) := by
  obtain ⟨res, res1, h1, h2, h3, _, _, h6⟩ :=
    memory_note_iff [2, 0, 0, 0, 0, 0, 0, 0, 0, 0] [2, 1, 2, 1, 2, 1, 2, 1, 2, 1] [] [] 1
      sampleEnv "Ann" false noFiles (by decide) (by decide) (by decide) (by decide) (by decide)
      (by decide)
  exact ⟨res, res1, h1, h2, h3, h6⟩

/-! ## Text that is not a numeral, and the empty log -/

theorem extractInt_nonnumeric (s : IStream) (old : Int) (hgood : s.good = true)
    (htok : skipws s.buf ≠ []) (hnn : startsNumeral (skipws s.buf) = false) :
    (extractInt s old).1 = 0 ∧ (extractInt s old).2.good = false := by
  unfold extractInt
  rw [if_pos hgood]
  cases hs : skipws s.buf with
  | nil => exact absurd hs htok
  | cons c cs =>
    rw [hs] at hnn
    have hbody : ((if (c == '-' || c == '+') = true then cs else c :: cs).takeWhile
        Char.isDigit).isEmpty = true := by
      by_cases hsign : (c == '-' || c == '+') = true
      · rw [if_pos hsign]
        cases cs with
        | nil => rfl
        | cons d ds =>
          have hd : d.isDigit = false := by
            simp only [startsNumeral, hsign, Bool.true_and, Bool.or_eq_false_iff] at hnn
            exact hnn.2
          simp [List.takeWhile, hd]
      · rw [if_neg hsign]
        have hc : c.isDigit = false := by
          cases cs with
          | nil => simpa [startsNumeral] using hnn
          | cons d ds =>
            simp only [startsNumeral, Bool.or_eq_false_iff] at hnn
            exact hnn.1
        simp [List.takeWhile, hc]
    simp only [hbody, if_true, and_self]

/-- Text that is not a numeral, waiting at a question prompt on a good stream: the extraction
fails and leaves 0 in `responses[i]`; 0 passes the range check, so the question is not asked
again: 0 is recorded as its response, the total is unchanged, the progress line is displayed
and the loop goes on to the next question, with the input stream no longer good. -/
theorem nonnumeric_recorded_as_zero (fuel : Nat) (g : Int) (i : Nat) (st : LoopState)
    (hgood : st.cin.good = true) (htok : skipws st.cin.buf ≠ [])
    (hnn : startsNumeral (skipws st.cin.buf) = false) (hfuel : 0 < fuel) :
    ∃ st1, askQuestion fuel g i st = some st1 ∧
      st1.responses = st.responses ++ [0] ∧ st1.totalScore = st.totalScore ∧
      st1.out = st.out ++ [questions.getD i "" ++ "\n", promptMsg, progressMsg i] ∧
      st1.cin.good = false := by
  obtain ⟨f, rfl⟩ : ∃ f, fuel = f + 1 := ⟨fuel - 1, by omega⟩
  obtain ⟨h1, h2⟩ := extractInt_nonnumeric st.cin g hgood htok hnn
  refine ⟨_, by simp only [askQuestion, whileInvalid, h1]; rfl, rfl, by simp, by simp, h2⟩

/-- C4 (evaluation at the failing input): the text `abc` typed at the first question is not
rejected. The question is not asked again (no request to enter the response again is
displayed), the response 0 is recorded for it and the progress line "1/10" is displayed. The
stream is then no longer good, so no later extraction reads anything: when the other cells of
`responses` happen to hold 1 the run completes with the responses 0, 1, ..., 1, none of them a
value that was typed; when they hold 7 the run never leaves the validation loop of the second
question. -/
theorem nonnumeric_not_rejected :
    askQuestion 1 7 0 ⟨⟨"abc\n1\n".data, true⟩, [], 0, []⟩ =
      some ⟨⟨"abc\n1\n".data, false⟩, [0], 0,
        ["1. Do you often forget recent conversations, appointments, or events?\n",
         "Your response (0 = Never, 1 = Sometimes, 2 = Often): ",
         "Progress: [ 1/10] completed\n\n"]⟩ ∧
    (runAssessment 5 { sampleEnv with responses0 := fun _ => 1 } "Ann" false
        ⟨"abc\n2\n2\n2\n2\n2\n2\n2\n2\n2\n2\n0\n".data, true⟩ noFiles).map
      (fun r => (r.responses, r.totalScore, decide (invalidMsg ∈ r.world.out))) =
      some ([0, 1, 1, 1, 1, 1, 1, 1, 1, 1], 9, false) ∧
    ¬ ∃ (fuel : Nat) (res : Outcome), runAssessment fuel sampleEnv "Ann" false
        ⟨"abc\n2\n2\n2\n2\n2\n2\n2\n2\n2\n2\n0\n".data, true⟩ noFiles = some res := by
  refine ⟨by decide, by decide, ?_⟩
  rintro ⟨fuel, res, h⟩
  obtain ⟨st, hloop, _⟩ := loop_of_run _ _ _ _ _ _ _ h
  cases fuel with
  | zero => simp [NUM_QUESTIONS, forLoop, askQuestion, whileInvalid] at hloop
  | succ f =>
    have h0 : askQuestion (f + 1) (sampleEnv.responses0 0) 0
        ⟨⟨"abc\n2\n2\n2\n2\n2\n2\n2\n2\n2\n2\n0\n".data, true⟩, [], 0, []⟩ =
        some ⟨⟨"abc\n2\n2\n2\n2\n2\n2\n2\n2\n2\n2\n0\n".data, false⟩, [0], 0,
          [questions.getD 0 "" ++ "\n", promptMsg, progressMsg 0]⟩ := rfl
    have h1 : askQuestion (f + 1) (sampleEnv.responses0 1) 1
        ⟨⟨"abc\n2\n2\n2\n2\n2\n2\n2\n2\n2\n2\n0\n".data, false⟩, [0], 0,
          [questions.getD 0 "" ++ "\n", promptMsg, progressMsg 0]⟩ = none := by
      simp only [askQuestion, extractInt, Bool.false_eq_true, if_false]
      rw [whileInvalid_failed (f + 1) (sampleEnv.responses0 1) _ _ (Or.inr (by decide))]
    simp only [NUM_QUESTIONS, forLoop, h0, h1] at hloop
    cases hloop

/-- C8 (evaluation at the failing input): on a log file that exists and is empty,
`viewPastResults` writes the header of the results and the separator, and not the message
"No previous results found."; on an absent log file it writes that message alone. -/
theorem viewPastResults_empty_log :
    (viewPastResults (fun n => if n = logFile then some "" else none)).1 =
      ["\n📁 Displaying past results:\n",
       "------------------------------------------------------\n"] ∧
    "No previous results found.\n" ∉
      (viewPastResults (fun n => if n = logFile then some "" else none)).1 ∧
    (viewPastResults noFiles).1 = ["No previous results found.\n"] := by
  decide

/-! ## A reminder answer that is not a numeral, and the caregiver note -/

theorem caregiver_failed (env : Env) (w : World) (h : w.cin.good = false) :
    (caregiver env true w).fs = w.fs ∨
    (caregiver env true w).fs = appendFile w.fs logFile (noteLine "") := by
  unfold caregiver
  simp only [extractChar, ignore, getline, h, Bool.false_eq_true, if_false, if_true]
  split_ifs
  · exact Or.inr rfl
  · exact Or.inl rfl

theorem append_left_cancel (a b c : String) (h : a ++ b = a ++ c) : b = c := by
  have hd := congrArg String.data h
  rw [String.data_append, String.data_append] at hd
  exact String.ext (List.append_cancel_left hd)

set_option maxRecDepth 100000

/-- C10 (evaluation at the failing input): a caregiver answers the ten questions with 0, types
`no` at the reminder prompt, then `y` and the note `slept badly`. The extraction of the reminder
choice fails on `no` (as it does on 99999999999, which does not fit an `int`) and the stream is
never cleared, so the answer and the note are never read and `noteChoice` keeps whatever it
held. When it held `q` the log gains the entry and no note line, although the answer was `y`;
when it held `y` and the answer typed is `n`, the log gains the line "Caregiver Note: " with an
empty note nobody asked for. Whatever it held, the note typed never reaches the log. -/
theorem caregiver_note_lost :
    (runAssessment 1 sampleEnv "Ann" true
        ⟨"0\n0\n0\n0\n0\n0\n0\n0\n0\n0\nno\ny\nslept badly\n".data, true⟩ noFiles).map
      (fun r => (r.reminderChoice, r.world.cin.good, r.world.fs logFile)) =
      some (0, false, some (logEntry "Ann" true "1000\n" 0)) ∧
    (runAssessment 1 sampleEnv "Ann" true
        ⟨"0\n0\n0\n0\n0\n0\n0\n0\n0\n0\n99999999999\ny\nslept badly\n".data, true⟩ noFiles).map
      (fun r => (r.reminderChoice, r.world.cin.good, r.world.fs logFile)) =
      some (2147483647, false, some (logEntry "Ann" true "1000\n" 0)) ∧
    (runAssessment 1 { sampleEnv with noteChoice0 := 'y' } "Ann" true
        ⟨"0\n0\n0\n0\n0\n0\n0\n0\n0\n0\nno\nn\n".data, true⟩ noFiles).map
      (fun r => r.world.fs logFile) =
      some (some (logEntry "Ann" true "1000\n" 0 ++ "Caregiver Note: \n")) ∧
    ¬ ∃ (fuel : Nat) (env : Env) (res : Outcome),
      runAssessment fuel env "Ann" true
        ⟨"0\n0\n0\n0\n0\n0\n0\n0\n0\n0\nno\ny\nslept badly\n".data, true⟩ noFiles = some res ∧
      res.world.fs logFile = some (logEntry "Ann" true (env.ctime env.now) res.totalScore ++
        "Caregiver Note: slept badly\n") := by
  refine ⟨by decide, by decide, by decide, ?_⟩
  rintro ⟨fuel, env, res, h, hlog⟩
  obtain ⟨st, hloop, rfl⟩ := loop_of_run _ _ _ _ _ _ _ h
  have hfuel : 0 < fuel := by
    rcases Nat.eq_zero_or_pos fuel with h0 | h0
    · subst h0
      simp [NUM_QUESTIONS, forLoop, askQuestion, whileInvalid] at hloop
    · exact h0
  obtain ⟨st1, ws1, h1, _, _, _, h5, h6⟩ :=
    forLoop_typed "no\ny\nslept badly\n".data env.responses0 NUM_QUESTIONS
      [0, 0, 0, 0, 0, 0, 0, 0, 0, 0] 0
      ⟨⟨"0\n0\n0\n0\n0\n0\n0\n0\n0\n0\nno\ny\nslept badly\n".data, true⟩, [], 0, []⟩ [] fuel
      (by decide) (by decide) (by simp) (by simpa using hfuel) rfl
  rw [hloop] at h1
  cases h1
  have hrem : remaining NUM_QUESTIONS [0, 0, 0, 0, 0, 0, 0, 0, 0, 0] = [] := by decide
  rw [hrem] at h6
  have hsk : skipws st.cin.buf = "no\ny\nslept badly\n".data := by
    rw [h6]
    show skipws (ws1 ++ ([] ++ "no\ny\nslept badly\n".data)) = _
    rw [skipws_append _ _ h5]
    decide
  have hgood : st.cin.good = true := by rw [h6]
  have hbad := (extractInt_nonnumeric st.cin env.reminderChoice0 hgood
    (by rw [hsk]; decide) (by rw [hsk]; decide)).2
  have hcin : (reminder env "Ann" (report env "Ann" true st noFiles)).1.cin.good = false := by
    rw [(reminder_choice _ _ _).2, (report_fs _ _ _ _ _).2]
    exact hbad
  have hl := reminder_log env "Ann" (report env "Ann" true st noFiles)
  rw [(report_fs env "Ann" true st noFiles).1, appendFile_same] at hl
  have hP : (noFiles logFile).getD "" = "" := rfl
  rw [hP, String.empty_append] at hl
  have hlog1 : (caregiver env true
      (reminder env "Ann" (report env "Ann" true st noFiles)).1).fs logFile =
      some (logEntry "Ann" true (env.ctime env.now) st.totalScore ++
        "Caregiver Note: slept badly\n") := hlog
  rcases caregiver_failed env _ hcin with hc | hc
  · rw [hc, hl, Option.some.injEq] at hlog1
    have := append_left_cancel (logEntry "Ann" true (env.ctime env.now) st.totalScore) ""
      "Caregiver Note: slept badly\n" (by rw [String.append_empty]; exact hlog1)
    exact absurd this (by decide)
  · rw [hc, appendFile_same, hl, Option.getD_some, Option.some.injEq] at hlog1
    have := append_left_cancel _ _ _ hlog1
    exact absurd this (by decide)

end NeuroScan
